import Mathlib

/-!
# WeekendUtils: game-mode service configs and the async service lifecycle

A shallow embedding of

* `Private/GameService/GameModeServiceConfigBase.cpp`
  (`RegisterForMapsWithGameMode`, `ShouldUseWithGameMode`, `FindConfigForWorld` over the
  file-static map `Internal::GConfigClassesByGameModes`), and
* `Public/GameService/AsyncGameServiceBase.h` (the status enum, the fields and the inline
  queries of `UAsyncGameServiceBase`),
* `Private/GameService/Initialization/WorldGameServiceRunner.h` (the teardown of the runner), and
* `Private/SaveGame/SaveGameUtils.cpp` (`GetLevel`, `GetGameModeClass`,
  `IsSavingAllowedForWorld`).

The engine's reflected classes are represented by values that carry their own super-struct
link, so that `UStruct::IsChildOf` is a structural walk of the chain.
-/

namespace WeekendUtils

/-! ## Reflected classes -/

/-- A reflected class (`UClass`): either a class without super struct, or a class together
with its super struct. Two classes are the same class iff they are equal (pointer identity of
the engine). -/
inductive UClass where
  | root (Name : Nat) : UClass
  | derived (Name : Nat) (SuperStruct : UClass) : UClass
deriving DecidableEq, Repr

/-- A `TSubclassOf<T>` value: `none` is `nullptr`. -/
abbrev TSubclassOf := Option UClass

namespace UClass

/-- The engine accessor `UStruct::GetSuperStruct` (also `UClass::GetSuperClass`). -/
def GetSuperStruct : UClass → Option UClass
  | root _ => none
  | derived _ s => some s

/-- The walk of `UStruct::IsChildOf` for a non-null base: `this`, then its super structs. -/
def IsChildOfClass : UClass → UClass → Bool
  | root n, SomeBase => decide (root n = SomeBase)
  | derived n s, SomeBase => decide (derived n s = SomeBase) || IsChildOfClass s SomeBase

/-- The engine query `UStruct::IsChildOf(const UStruct* SomeBase)`: false for a null base,
otherwise whether `SomeBase` is `this` or one of its super structs. -/
def IsChildOf (This : UClass) (SomeBase : TSubclassOf) : Bool :=
  match SomeBase with
  | none => false
  | some b => IsChildOfClass This b

end UClass

/-- The relation "`c` is `k` itself or a descendant of `k`", stated independently of the walk. -/
inductive IsDescendantOrSelf : UClass → UClass → Prop where
  | self (c : UClass) : IsDescendantOrSelf c c
  | step (n : Nat) (s k : UClass) : IsDescendantOrSelf s k → IsDescendantOrSelf (UClass.derived n s) k

/-! ## Configuration objects and worlds -/

/-- A `UGameModeServiceConfigBase` object: its class (`GetClass()`), and which object of that
class it is (`none` is the class default object). -/
structure UGameModeServiceConfigBase where
  Class : UClass
  Instance : Option Nat
deriving DecidableEq, Repr

/-- The engine accessor `UClass::GetDefaultObject`. -/
def GetDefaultObject (ConfigClass : UClass) : UGameModeServiceConfigBase :=
  ⟨ConfigClass, none⟩

/-- The engine query `UObject::IsA(SomeBase)`, that is `GetClass()->IsChildOf(SomeBase)`. -/
def UGameModeServiceConfigBase.IsA (This : UGameModeServiceConfigBase) (SomeBase : TSubclassOf) : Bool :=
  This.Class.IsChildOf SomeBase

/-- The part of `AWorldSettings` that is read here. -/
structure AWorldSettings where
  DefaultGameMode : TSubclassOf
deriving DecidableEq, Repr

/-- The part of `UWorld` that is read here: `GetWorldSettings()`. -/
structure UWorld where
  WorldSettings : AWorldSettings
deriving DecidableEq, Repr

/-! ## The registry `Internal::GConfigClassesByGameModes`

`TMap` keeps its pairs in a sparse array; without removals (this file has none) a new key takes
the next slot, and iteration visits the slots in that order. The map is therefore a list of pairs
in order of first insertion. Between two calls every stored value is a class: the only writer,
`RegisterForMapsWithGameMode`, ends by storing `GetClass()`; the null value that `FindOrAdd`
default-constructs for a fresh key lives only inside that call. -/

/-- The map from game mode class to config class, as its slots in iteration order. -/
abbrev TMap := List (TSubclassOf × UClass)

/-- The method `TMap::Find`: the value stored under a key. -/
def TMap.Find : TMap → TSubclassOf → Option UClass
  | [], _ => none
  | (k, v) :: rest, Key => if k = Key then some v else TMap.Find rest Key

/-- Assignment through the reference that `FindOrAdd` returned for an existing key: the slot
keeps its place, its value is replaced. -/
def TMap.Assign : TMap → TSubclassOf → UClass → TMap
  | [], _, _ => []
  | (k, v) :: rest, Key, Value =>
    if k = Key then (k, Value) :: rest else (k, v) :: TMap.Assign rest Key Value

/-- The keys of the map, in iteration order. -/
def TMap.Keys (Map : TMap) : List TSubclassOf := Map.map Prod.fst

/-- Outcome of `RegisterForMapsWithGameMode`: the map afterwards and whether the
`ensureMsgf(false, "... already has another config class configured!")` was hit. -/
structure RegisterOutcome where
  Registry : TMap
  bEnsureFailed : Bool
deriving DecidableEq, Repr

/-- The method `UGameModeServiceConfigBase::RegisterForMapsWithGameMode`.
`FindOrAdd` yields the stored class of an existing key, or null for a fresh slot; the ensure
fires when that class is non-null and differs from `GameModeClass`; then `GetClass()` is stored. -/
def RegisterForMapsWithGameMode (Registry : TMap) (This : UGameModeServiceConfigBase)
    (GameModeClass : TSubclassOf) : RegisterOutcome :=
  match Registry.Find GameModeClass with
  | none =>
    -- fresh slot: RegisteredConfigClass == nullptr, no ensure
    { Registry := Registry ++ [(GameModeClass, This.Class)], bEnsureFailed := false }
  | some RegisteredConfigClass =>
    { Registry := Registry.Assign GameModeClass This.Class,
      bEnsureFailed := decide (some RegisteredConfigClass ≠ GameModeClass) }

/-- The loop of `ShouldUseWithGameMode` over the map; `none` stands for the dereference of a
null key (`ConfiguredGameMode->IsChildOf`). -/
def ShouldUseWithGameModeLoop (This : UGameModeServiceConfigBase) (GameModeClass : TSubclassOf) :
    TMap → Option Bool
  | [] => some false
  | (ConfiguredGameMode, ConfiguredConfig) :: rest =>
    match ConfiguredGameMode with
    | none => none
    | some Configured =>
      if Configured.IsChildOf GameModeClass then some (This.IsA (some ConfiguredConfig))
      else ShouldUseWithGameModeLoop This GameModeClass rest

/-- The method `UGameModeServiceConfigBase::ShouldUseWithGameMode`. -/
def ShouldUseWithGameMode (Registry : TMap) (This : UGameModeServiceConfigBase)
    (GameModeClass : TSubclassOf) : Option Bool :=
  ShouldUseWithGameModeLoop This GameModeClass Registry

/-- The loop of `FindConfigForWorld` over the map: the first slot whose game mode the current
game mode is a child of. -/
def FindConfigForWorldLoop (CurrentGameModeClass : UClass) :
    TMap → Option UGameModeServiceConfigBase
  | [] => none
  | (ConfiguredGameMode, ConfiguredConfig) :: rest =>
    if CurrentGameModeClass.IsChildOf ConfiguredGameMode then
      some (GetDefaultObject ConfiguredConfig)
    else FindConfigForWorldLoop CurrentGameModeClass rest

/-- The static method `UGameModeServiceConfigBase::FindConfigForWorld`; `none` is `nullptr`. -/
def FindConfigForWorld (Registry : TMap) (World : UWorld) : Option UGameModeServiceConfigBase :=
  match World.WorldSettings.DefaultGameMode with
  | none => none
  | some CurrentGameModeClass => FindConfigForWorldLoop CurrentGameModeClass Registry

/-- One call `This->RegisterForMapsWithGameMode(GameModeClass)`. -/
structure RegisterCall where
  This : UGameModeServiceConfigBase
  GameModeClass : TSubclassOf
deriving DecidableEq, Repr

/-- The map after a sequence of registration calls. -/
def RegisterAll (Registry : TMap) : List RegisterCall → TMap
  | [] => Registry
  | call :: rest =>
    RegisterAll (RegisterForMapsWithGameMode Registry call.This call.GameModeClass).Registry rest

/-! ## A small concrete hierarchy, for evaluating the code -/

/-- The engine class `UObject`. -/
def UObjectClass : UClass := .root 0
/-- The engine class `AActor`. -/
def AActorClass : UClass := .derived 1 UObjectClass
/-- The engine class `AInfo`. -/
def AInfoClass : UClass := .derived 2 AActorClass
/-- The engine class `AGameModeBase`. -/
def AGameModeBaseClass : UClass := .derived 3 AInfoClass
/-- The class `UGameModeServiceConfigBase`. -/
def UGameModeServiceConfigBaseClass : UClass := .derived 10 UObjectClass
/-- A game mode `A`. -/
def GameModeA : UClass := .derived 20 AGameModeBaseClass
/-- A game mode `B` deriving from `A`. -/
def GameModeB : UClass := .derived 21 GameModeA
/-- A config class `CA`. -/
def ConfigCA : UClass := .derived 30 UGameModeServiceConfigBaseClass
/-- A config class `CB`. -/
def ConfigCB : UClass := .derived 31 UGameModeServiceConfigBaseClass
/-- A game mode `C` that is neither an ancestor nor a descendant of `A` and `B`. -/
def GameModeC : UClass := .derived 22 AGameModeBaseClass
/-- A world whose world settings name the given game mode. -/
def WorldWithGameMode (GameMode : TSubclassOf) : UWorld := ⟨⟨GameMode⟩⟩

/-! ## The async service lifecycle (`AsyncGameServiceBase.h`)

The header declares the status enum, the fields and the inline queries; they are transcribed
below. The bodies of `StartService`, `ShutdownService`, `WaitUntilServiceIsRunning`,
`FinishServiceStart` and `FinishServiceShutdown` are in `AsyncGameServiceBase.cpp`. -/

/-- The enum `UAsyncGameServiceBase::EAsyncServiceStatus`. -/
inductive EAsyncServiceStatus where
  | Inactive
  | Starting
  | Running
  | Stopping
deriving DecidableEq, Repr

/-- A bound `FOnAsyncGameServiceStarted` delegate, named by a number. -/
abbrev FOnAsyncGameServiceStarted := Nat

/-- What a call on the service does outside the service object: it enters one of the two
extension points of the derived class, or it executes a start delegate. -/
inductive EServiceEffect where
  | BeginServiceStart
  | BeginServiceShutdown (bIsWorldTearingDown : Bool)
  | Executed (Callback : FOnAsyncGameServiceStarted)
deriving DecidableEq, Repr

/-- The state of a `UAsyncGameServiceBase`: the three fields of the header, and whether the
deferred start is still waiting for the dependencies (the wait that the service user part keeps
in `FGameServiceUser::PendingDependencyWaitCallbacks`). -/
structure UAsyncGameServiceBase where
  CurrentStatus : EAsyncServiceStatus
  bWaitForDependenciesBeforeStarting : Bool
  PendingServiceStartCallbacks : List FOnAsyncGameServiceStarted
  bWaitingForDependencies : Bool
deriving DecidableEq, Repr

/-- A freshly constructed service: the in-class initialisers of the header. -/
def UAsyncGameServiceBase.Constructed : UAsyncGameServiceBase :=
  { CurrentStatus := EAsyncServiceStatus.Inactive,
    bWaitForDependenciesBeforeStarting := true,
    PendingServiceStartCallbacks := [],
    bWaitingForDependencies := false }

/-- The inline method `UAsyncGameServiceBase::IsServiceRunning`. -/
def UAsyncGameServiceBase.IsServiceRunning (This : UAsyncGameServiceBase) : Bool :=
  This.CurrentStatus == EAsyncServiceStatus.Running

/-- The inline method `UAsyncGameServiceBase::IsTickable`. -/
def UAsyncGameServiceBase.IsTickable (This : UAsyncGameServiceBase) : Bool :=
  This.IsServiceRunning

/-- Modelled from the spec: the body of `UAsyncGameServiceBase::WaitUntilServiceIsRunning` is in
`AsyncGameServiceBase.cpp`, which is missing. "`WaitUntilRunning(callback)`: fires synchronously
if already Running; otherwise queues." Returns the service afterwards and the effects of the
call, in order. -/
def UAsyncGameServiceBase.WaitUntilServiceIsRunning (This : UAsyncGameServiceBase)
    (Callback : FOnAsyncGameServiceStarted) : UAsyncGameServiceBase × List EServiceEffect :=
  if This.IsServiceRunning then (This, [EServiceEffect.Executed Callback])
  else
    ({ This with PendingServiceStartCallbacks := This.PendingServiceStartCallbacks ++ [Callback] },
      [])

/-- Modelled from the spec: the body of `UAsyncGameServiceBase::StartService` is in
`AsyncGameServiceBase.cpp`, which is missing. "Inactive --StartService()--> Starting: invokes
the start extension point"; "a service configured to defer starting until dependencies are
ready postpones invoking the start extension point until `AreAllDependenciesReady()` holds".
`none`: the spec gives no transition for this call in this status. -/
def UAsyncGameServiceBase.StartService (This : UAsyncGameServiceBase)
    (bAreAllDependenciesReady : Bool) : Option (UAsyncGameServiceBase × List EServiceEffect) :=
  if This.CurrentStatus = EAsyncServiceStatus.Inactive then
    if !This.bWaitForDependenciesBeforeStarting || bAreAllDependenciesReady then
      some ({ This with CurrentStatus := EAsyncServiceStatus.Starting },
        [EServiceEffect.BeginServiceStart])
    else
      some ({ This with CurrentStatus := EAsyncServiceStatus.Starting,
                        bWaitingForDependencies := true }, [])
  else none

/-- Modelled from the spec: the per-tick poll of the deferred start; its body
(`FGameServiceUser::PollPendingDependencyWaitCallbacks`) is missing. The deferred start is
"re-checked every tick": once the dependencies are ready the start extension point is invoked,
once. -/
def UAsyncGameServiceBase.PollPendingDependencyWaitCallbacks (This : UAsyncGameServiceBase)
    (bAreAllDependenciesReady : Bool) : UAsyncGameServiceBase × List EServiceEffect :=
  if This.bWaitingForDependencies && bAreAllDependenciesReady then
    ({ This with bWaitingForDependencies := false }, [EServiceEffect.BeginServiceStart])
  else (This, [])

/-- Modelled from the spec: the body of `UAsyncGameServiceBase::FinishServiceStart` is in
`AsyncGameServiceBase.cpp`, which is missing. "Starting --FinishServiceStart()--> Running:
drains all queued PendingCallbacks in FIFO order." `none`: the spec gives no transition for this
call in this status. -/
def UAsyncGameServiceBase.FinishServiceStart (This : UAsyncGameServiceBase) :
    Option (UAsyncGameServiceBase × List EServiceEffect) :=
  if This.CurrentStatus = EAsyncServiceStatus.Starting then
    some ({ This with CurrentStatus := EAsyncServiceStatus.Running,
                      PendingServiceStartCallbacks := [] },
      This.PendingServiceStartCallbacks.map EServiceEffect.Executed)
  else none

/-- Modelled from the spec: the body of `UAsyncGameServiceBase::ShutdownService` is in
`AsyncGameServiceBase.cpp`, which is missing. "Running --ShutdownService()--> Stopping: invokes
the shutdown extension point with a flag indicating whether the owning session is tearing
down." `none`: the spec gives no transition for this call in this status. -/
def UAsyncGameServiceBase.ShutdownService (This : UAsyncGameServiceBase)
    (bIsWorldTearingDown : Bool) : Option (UAsyncGameServiceBase × List EServiceEffect) :=
  if This.CurrentStatus = EAsyncServiceStatus.Running then
    some ({ This with CurrentStatus := EAsyncServiceStatus.Stopping },
      [EServiceEffect.BeginServiceShutdown bIsWorldTearingDown])
  else none

/-- Modelled from the spec: the body of `UAsyncGameServiceBase::FinishServiceShutdown` is in
`AsyncGameServiceBase.cpp`, which is missing. "Stopping --FinishServiceShutdown()--> Inactive".
`none`: the spec gives no transition for this call in this status. -/
def UAsyncGameServiceBase.FinishServiceShutdown (This : UAsyncGameServiceBase) :
    Option (UAsyncGameServiceBase × List EServiceEffect) :=
  if This.CurrentStatus = EAsyncServiceStatus.Stopping then
    some ({ This with CurrentStatus := EAsyncServiceStatus.Inactive }, [])
  else none

/-- One call on an async service, by the host or by the derived class. -/
inductive EServiceCall where
  | StartService (bAreAllDependenciesReady : Bool)
  | Tick (bAreAllDependenciesReady : Bool)
  | WaitUntilServiceIsRunning (Callback : FOnAsyncGameServiceStarted)
  | FinishServiceStart
  | ShutdownService (bIsWorldTearingDown : Bool)
  | FinishServiceShutdown
deriving DecidableEq, Repr

/-- The service after one call, and the effects of the call. -/
def UAsyncGameServiceBase.Call (This : UAsyncGameServiceBase) :
    EServiceCall → Option (UAsyncGameServiceBase × List EServiceEffect)
  | EServiceCall.StartService bReady => This.StartService bReady
  | EServiceCall.Tick bReady => some (This.PollPendingDependencyWaitCallbacks bReady)
  | EServiceCall.WaitUntilServiceIsRunning Callback =>
    some (This.WaitUntilServiceIsRunning Callback)
  | EServiceCall.FinishServiceStart => This.FinishServiceStart
  | EServiceCall.ShutdownService bIsWorldTearingDown => This.ShutdownService bIsWorldTearingDown
  | EServiceCall.FinishServiceShutdown => This.FinishServiceShutdown

/-- The service after a sequence of calls, and the effects of all of them in order; `none` when
one of the calls has no transition where it is made. -/
def UAsyncGameServiceBase.CallAll (This : UAsyncGameServiceBase) :
    List EServiceCall → Option (UAsyncGameServiceBase × List EServiceEffect)
  | [] => some (This, [])
  | c :: rest =>
    match This.Call c with
    | none => none
    | some (Next, Effects) =>
      match UAsyncGameServiceBase.CallAll Next rest with
      | none => none
      | some (Final, More) => some (Final, Effects ++ More)

/-- The delegates handed to `WaitUntilServiceIsRunning` in a sequence of calls, in order. -/
def SuppliedCallbacks : List EServiceCall → List FOnAsyncGameServiceStarted
  | [] => []
  | EServiceCall.WaitUntilServiceIsRunning Callback :: rest => Callback :: SuppliedCallbacks rest
  | _ :: rest => SuppliedCallbacks rest

/-! ## The teardown of the runner (`WorldGameServiceRunner.h`)

The header declares `UWorldGameServiceRunner::Deinitialize`; its body is in
`WorldGameServiceRunner.cpp`. -/

/-- An `FSoftObjectPath` made from a path name: `none` is the path made from "None", the name
that `GetPathNameSafe` gives for a null object. -/
abbrev FSoftObjectPath := Option Nat

/-- An `FSoftClassPath` made from the path name of a class, identified with the class that the
path names; `none` is the path made from "None". -/
abbrev FSoftClassPath := Option UClass

/-- A world object behind a `UWorld*`: what is read of the world, its path name, and whether
`IsValid` holds of it. -/
structure UWorldObject where
  World : UWorld
  PathName : Nat
  bIsValid : Bool
deriving DecidableEq, Repr

/-- A `UWorld*` argument: `none` is `nullptr`. -/
abbrev UWorldPtr := Option UWorldObject

/-- The engine query `IsValid(World)`. -/
def IsValid : UWorldPtr → Bool
  | none => false
  | some Object => Object.bIsValid

/-- The soft object path made of `GetPathNameSafe(World)`. -/
def GetPathNameSafe : UWorldPtr → FSoftObjectPath
  | none => none
  | some Object => some Object.PathName

/-- The fields of `USaveGameServiceSettings` that `IsSavingAllowedForWorld` reads; the
declaration of the class is not among the sources, the fields are taken as they are used. -/
structure USaveGameServiceSettings where
  bAlwaysAllowSaving : Bool
  MapsWhereSavingIsAllowed : List FSoftObjectPath
  GameModesWhereSavingIsAllowed : List FSoftClassPath
deriving DecidableEq, Repr

/-- The line `World = (IsValid(World) ? World : GEditor->PlayWorld.Get())`, which `GetLevel` and
`GetGameModeClass` both have under `#if WITH_EDITOR`. The build flag and the editor's play world
are arguments. -/
def PlayWorldFallback (WITH_EDITOR : Bool) (PlayWorld World : UWorldPtr) : UWorldPtr :=
  if WITH_EDITOR then (if IsValid World then World else PlayWorld) else World

/-- The helper `GetLevel` of `SaveGameUtils.cpp`. -/
def GetLevel (WITH_EDITOR : Bool) (PlayWorld World : UWorldPtr) : FSoftObjectPath :=
  GetPathNameSafe (PlayWorldFallback WITH_EDITOR PlayWorld World)

/-- The helper `GetGameModeClass` of `SaveGameUtils.cpp`:
`IsValid(World) ? World->GetWorldSettings()->DefaultGameMode : nullptr` after the fallback. -/
def GetGameModeClass (WITH_EDITOR : Bool) (PlayWorld World : UWorldPtr) : TSubclassOf :=
  match PlayWorldFallback WITH_EDITOR PlayWorld World with
  | none => none
  | some Object =>
    if Object.bIsValid then Object.World.WorldSettings.DefaultGameMode else none

/-- The loop of `IsSavingAllowedForWorld` from a non-null class: true when the class is listed;
otherwise it stops at `AGameModeBase` or at a class without super class, and else goes on with
the super class. -/
def IsSavingAllowedForWorldLoop (Settings : USaveGameServiceSettings) : UClass → Bool
  | UClass.root n =>
    decide (some (UClass.root n) ∈ Settings.GameModesWhereSavingIsAllowed)
  | UClass.derived n s =>
    if some (UClass.derived n s) ∈ Settings.GameModesWhereSavingIsAllowed then true
    else if UClass.derived n s = AGameModeBaseClass then false
    else IsSavingAllowedForWorldLoop Settings s

/-- The static method `USaveGameUtils::IsSavingAllowedForWorld`. -/
def IsSavingAllowedForWorld (Settings : USaveGameServiceSettings) (WITH_EDITOR : Bool)
    (PlayWorld World : UWorldPtr) : Bool :=
  if Settings.bAlwaysAllowSaving then true
  else if GetLevel WITH_EDITOR PlayWorld World ∈ Settings.MapsWhereSavingIsAllowed then true
  else
    match GetGameModeClass WITH_EDITOR PlayWorld World with
    | none => false
    | some GameModeClass => IsSavingAllowedForWorldLoop Settings GameModeClass

/-! ## Lemmas on the class hierarchy -/

theorem UClass.IsChildOfClass_iff (c k : UClass) :
    c.IsChildOfClass k = true ↔ IsDescendantOrSelf c k := by
  induction c with
  | root n =>
    simp only [UClass.IsChildOfClass, decide_eq_true_eq]
    constructor
    · intro h
      subst h
      exact IsDescendantOrSelf.self _
    · intro h
      cases h
      rfl
  | derived n s ih =>
    simp only [UClass.IsChildOfClass, Bool.or_eq_true, decide_eq_true_eq, ih]
    constructor
    · rintro (h | h)
      · subst h
        exact IsDescendantOrSelf.self _
      · exact IsDescendantOrSelf.step n s k h
    · intro h
      cases h with
      | self => exact Or.inl rfl
      | step _ _ _ h => exact Or.inr h

theorem UClass.IsChildOf_some_iff (c k : UClass) :
    c.IsChildOf (some k) = true ↔ IsDescendantOrSelf c k := by
  simp only [UClass.IsChildOf, UClass.IsChildOfClass_iff]

theorem UClass.IsChildOf_none (c : UClass) : c.IsChildOf none = false := rfl

theorem UClass.IsChildOf_self (c : UClass) : c.IsChildOf (some c) = true :=
  (UClass.IsChildOf_some_iff c c).2 (IsDescendantOrSelf.self c)

/-! ## Lemmas on the map -/

theorem TMap.Find_eq_none_iff (Map : TMap) (Key : TSubclassOf) :
    Map.Find Key = none ↔ Key ∉ Map.Keys := by
  induction Map with
  | nil => simp [TMap.Find, TMap.Keys]
  | cons p rest ih =>
    obtain ⟨k, v⟩ := p
    by_cases hk : k = Key
    · simp [TMap.Find, TMap.Keys, hk]
    · have hk2 : ¬ Key = k := fun h => hk h.symm
      simpa [TMap.Find, TMap.Keys, hk, hk2] using ih

theorem TMap.Find_mem (Map : TMap) (Key : TSubclassOf) (Value : UClass)
    (h : Map.Find Key = some Value) : (Key, Value) ∈ Map := by
  induction Map with
  | nil => simp [TMap.Find] at h
  | cons p rest ih =>
    obtain ⟨k, v⟩ := p
    by_cases hk : k = Key
    · simp only [TMap.Find, hk, if_true, Option.some.injEq] at h
      simp [hk, h]
    · simp only [TMap.Find, hk, if_false] at h
      exact List.mem_cons_of_mem _ (ih h)

theorem TMap.Keys_Assign (Map : TMap) (Key : TSubclassOf) (Value : UClass) :
    (Map.Assign Key Value).Keys = Map.Keys := by
  induction Map with
  | nil => rfl
  | cons p rest ih =>
    obtain ⟨k, v⟩ := p
    by_cases hk : k = Key
    · simp [TMap.Assign, TMap.Keys, hk]
    · simp only [TMap.Keys] at ih
      simp [TMap.Assign, TMap.Keys, hk, ih]

theorem TMap.Find_Assign_same (Map : TMap) (Key : TSubclassOf) (Old Value : UClass)
    (h : Map.Find Key = some Old) : (Map.Assign Key Value).Find Key = some Value := by
  induction Map with
  | nil => simp [TMap.Find] at h
  | cons p rest ih =>
    obtain ⟨k, v⟩ := p
    by_cases hk : k = Key
    · simp [TMap.Assign, TMap.Find, hk]
    · simp only [TMap.Find, hk, if_false] at h
      simp [TMap.Assign, TMap.Find, hk, ih h]

theorem TMap.Find_Assign_other (Map : TMap) (Key Other : TSubclassOf) (Value : UClass)
    (h : Other ≠ Key) : (Map.Assign Key Value).Find Other = Map.Find Other := by
  induction Map with
  | nil => rfl
  | cons p rest ih =>
    obtain ⟨k, v⟩ := p
    by_cases hk : k = Key
    · have hko : ¬ Key = Other := fun e => h e.symm
      simp [TMap.Assign, TMap.Find, hk, hko]
    · by_cases hko : k = Other
      · subst hko
        simp [TMap.Assign, TMap.Find, hk]
      · simp [TMap.Assign, TMap.Find, hk, hko, ih]

theorem TMap.Find_append (Map Tail : TMap) (Key : TSubclassOf) :
    TMap.Find (Map ++ Tail) Key = (Map.Find Key).orElse (fun _ => TMap.Find Tail Key) := by
  induction Map with
  | nil => simp [TMap.Find]
  | cons p rest ih =>
    obtain ⟨k, v⟩ := p
    by_cases hk : k = Key
    · simp [TMap.Find, hk]
    · simp [TMap.Find, hk, ih]

theorem RegisterForMapsWithGameMode_Find_same (Registry : TMap)
    (This : UGameModeServiceConfigBase) (GameModeClass : TSubclassOf) :
    (RegisterForMapsWithGameMode Registry This GameModeClass).Registry.Find GameModeClass
      = some This.Class := by
  unfold RegisterForMapsWithGameMode
  cases h : Registry.Find GameModeClass with
  | none => simp [TMap.Find_append, h, TMap.Find]
  | some Old => simpa using TMap.Find_Assign_same Registry GameModeClass Old This.Class h

theorem RegisterForMapsWithGameMode_Find_other (Registry : TMap)
    (This : UGameModeServiceConfigBase) (GameModeClass Other : TSubclassOf)
    (hne : Other ≠ GameModeClass) :
    (RegisterForMapsWithGameMode Registry This GameModeClass).Registry.Find Other
      = Registry.Find Other := by
  unfold RegisterForMapsWithGameMode
  cases h : Registry.Find GameModeClass with
  | none =>
    have hne2 : ¬ GameModeClass = Other := fun e => hne e.symm
    cases h2 : Registry.Find Other <;> simp [TMap.Find_append, h2, TMap.Find, hne2]
  | some Old => simpa using TMap.Find_Assign_other Registry GameModeClass Other This.Class hne

theorem RegisterForMapsWithGameMode_Keys (Registry : TMap)
    (This : UGameModeServiceConfigBase) (GameModeClass : TSubclassOf) :
    (RegisterForMapsWithGameMode Registry This GameModeClass).Registry.Keys
      = if GameModeClass ∈ Registry.Keys then Registry.Keys
        else Registry.Keys ++ [GameModeClass] := by
  unfold RegisterForMapsWithGameMode
  cases h : Registry.Find GameModeClass with
  | none =>
    have hk := (TMap.Find_eq_none_iff Registry GameModeClass).1 h
    rw [if_neg hk]
    simp [TMap.Keys]
  | some Old =>
    have hk : GameModeClass ∈ Registry.Keys := by
      by_contra hc
      rw [(TMap.Find_eq_none_iff Registry GameModeClass).2 hc] at h
      cases h
    simp [hk, TMap.Keys_Assign]

theorem RegisterForMapsWithGameMode_Keys_nodup (Registry : TMap)
    (This : UGameModeServiceConfigBase) (GameModeClass : TSubclassOf)
    (h : Registry.Keys.Nodup) :
    (RegisterForMapsWithGameMode Registry This GameModeClass).Registry.Keys.Nodup := by
  rw [RegisterForMapsWithGameMode_Keys]
  by_cases hk : GameModeClass ∈ Registry.Keys
  · simpa [hk] using h
  · simp only [hk, if_false]
    rw [List.nodup_append]
    refine ⟨h, List.nodup_singleton _, ?_⟩
    intro a ha hb
    simp only [List.mem_singleton] at hb
    exact hk (hb ▸ ha)

theorem RegisterAll_Keys_nodup (Calls : List RegisterCall) (Registry : TMap)
    (h : Registry.Keys.Nodup) : (RegisterAll Registry Calls).Keys.Nodup := by
  induction Calls generalizing Registry with
  | nil => exact h
  | cons call rest ih =>
    exact ih _ (RegisterForMapsWithGameMode_Keys_nodup Registry call.This call.GameModeClass h)

/-! ## Lemmas on the selection loop -/

theorem FindConfigForWorldLoop_eq_some (Current : UClass) (Registry : TMap)
    (Config : UGameModeServiceConfigBase)
    (h : FindConfigForWorldLoop Current Registry = some Config) :
    ∃ K V, Registry.Find (some K) = some V ∧ Config = GetDefaultObject V ∧
      IsDescendantOrSelf Current K := by
  induction Registry with
  | nil => simp [FindConfigForWorldLoop] at h
  | cons p rest ih =>
    obtain ⟨k, v⟩ := p
    by_cases hc : Current.IsChildOf k = true
    · simp only [FindConfigForWorldLoop, hc, if_true, Option.some.injEq] at h
      cases k with
      | none => simp [UClass.IsChildOf] at hc
      | some K =>
        exact ⟨K, v, by simp [TMap.Find], h.symm, (UClass.IsChildOf_some_iff Current K).1 hc⟩
    · simp only [FindConfigForWorldLoop, hc] at h
      obtain ⟨K, V, hfind, hcfg, hdesc⟩ := ih h
      refine ⟨K, V, ?_, hcfg, hdesc⟩
      have hk : ¬ k = some K := by
        intro e
        exact hc (e ▸ (UClass.IsChildOf_some_iff Current K).2 hdesc)
      simp [TMap.Find, hk, hfind]

theorem FindConfigForWorldLoop_eq_none_iff (Current : UClass) (Registry : TMap) :
    FindConfigForWorldLoop Current Registry = none ↔
      ∀ K V, (some K, V) ∈ Registry → ¬ IsDescendantOrSelf Current K := by
  induction Registry with
  | nil => simp [FindConfigForWorldLoop]
  | cons p rest ih =>
    obtain ⟨k, v⟩ := p
    by_cases hc : Current.IsChildOf k = true
    · simp only [FindConfigForWorldLoop, hc, if_true]
      constructor
      · intro h
        cases h
      · intro h
        cases k with
        | none => simp [UClass.IsChildOf] at hc
        | some K =>
          exact absurd ((UClass.IsChildOf_some_iff Current K).1 hc)
            (h K v (List.mem_cons_self _ _))
    · have hstep : FindConfigForWorldLoop Current ((k, v) :: rest)
          = FindConfigForWorldLoop Current rest := by
        simp [FindConfigForWorldLoop, hc]
      rw [hstep, ih]
      constructor
      · intro h K V hmem
        rcases List.mem_cons.1 hmem with e | hmem
        · intro hdesc
          have hk : k = some K := (Prod.mk.inj e).1.symm
          exact hc (hk ▸ (UClass.IsChildOf_some_iff Current K).2 hdesc)
        · exact h K V hmem
      · intro h K V hmem
        exact h K V (List.mem_cons_of_mem _ hmem)

theorem FindConfigForWorldLoop_append (Current : UClass) (Registry Tail : TMap)
    (h : FindConfigForWorldLoop Current Registry = none) :
    FindConfigForWorldLoop Current (Registry ++ Tail) = FindConfigForWorldLoop Current Tail := by
  induction Registry with
  | nil => rfl
  | cons p rest ih =>
    obtain ⟨k, v⟩ := p
    by_cases hc : Current.IsChildOf k = true
    · simp [FindConfigForWorldLoop, hc] at h
    · simp only [FindConfigForWorldLoop, hc] at h
      simp [FindConfigForWorldLoop, hc, ih h]

theorem FindConfigForWorldLoop_mem (Current : UClass) (Registry : TMap)
    (Config : UGameModeServiceConfigBase)
    (h : FindConfigForWorldLoop Current Registry = some Config) :
    ∃ K V, (some K, V) ∈ Registry ∧ Config = GetDefaultObject V ∧
      IsDescendantOrSelf Current K := by
  obtain ⟨K, V, hfind, hcfg, hdesc⟩ := FindConfigForWorldLoop_eq_some Current Registry Config h
  exact ⟨K, V, TMap.Find_mem Registry (some K) V hfind, hcfg, hdesc⟩

theorem FindConfigForWorldLoop_same_bindings (Current : UClass) (R1 R2 : TMap)
    (hsame : ∀ p, p ∈ R1 ↔ p ∈ R2)
    (hone : ∀ K1 V1 K2 V2, (some K1, V1) ∈ R1 → (some K2, V2) ∈ R1 →
      IsDescendantOrSelf Current K1 → IsDescendantOrSelf Current K2 → V1 = V2) :
    FindConfigForWorldLoop Current R1 = FindConfigForWorldLoop Current R2 := by
  cases h1 : FindConfigForWorldLoop Current R1 with
  | none =>
    symm
    rw [FindConfigForWorldLoop_eq_none_iff] at h1 ⊢
    intro K V hmem
    exact h1 K V ((hsame _).2 hmem)
  | some c1 =>
    obtain ⟨K1, V1, hm1, hc1, hd1⟩ := FindConfigForWorldLoop_mem Current R1 c1 h1
    cases h2 : FindConfigForWorldLoop Current R2 with
    | none =>
      rw [FindConfigForWorldLoop_eq_none_iff] at h2
      exact absurd hd1 (h2 K1 V1 ((hsame _).1 hm1))
    | some c2 =>
      obtain ⟨K2, V2, hm2, hc2, hd2⟩ := FindConfigForWorldLoop_mem Current R2 c2 h2
      have hv : V1 = V2 := hone K1 V1 K2 V2 hm1 ((hsame _).2 hm2) hd1 hd2
      rw [hc1, hc2, hv]

theorem TMap.Keys_mem (Map : TMap) (Key : TSubclassOf) (h : Key ∈ Map.Keys) :
    ∃ Value, (Key, Value) ∈ Map := by
  simp only [TMap.Keys, List.mem_map] at h
  obtain ⟨⟨k, v⟩, hmem, hk⟩ := h
  exact ⟨v, by simpa [← hk] using hmem⟩

theorem TMap.mem_Keys (Map : TMap) (Key : TSubclassOf) (Value : UClass)
    (h : (Key, Value) ∈ Map) : Key ∈ Map.Keys := by
  simp only [TMap.Keys, List.mem_map]
  exact ⟨(Key, Value), h, rfl⟩

theorem TMap.value_unique (Map : TMap) (Key : TSubclassOf) (V1 V2 : UClass)
    (hnodup : Map.Keys.Nodup) (h1 : (Key, V1) ∈ Map) (h2 : (Key, V2) ∈ Map) : V1 = V2 := by
  induction Map with
  | nil => cases h1
  | cons p rest ih =>
    obtain ⟨k, v⟩ := p
    have hnd : k ∉ TMap.Keys rest ∧ (TMap.Keys rest).Nodup := by
      simpa [TMap.Keys] using hnodup
    rcases List.mem_cons.1 h1 with e1 | m1 <;> rcases List.mem_cons.1 h2 with e2 | m2
    · exact (Prod.mk.inj e1).2.trans (Prod.mk.inj e2).2.symm
    · exact absurd (TMap.mem_Keys rest Key V2 m2) ((Prod.mk.inj e1).1 ▸ hnd.1)
    · exact absurd (TMap.mem_Keys rest Key V1 m1) ((Prod.mk.inj e2).1 ▸ hnd.1)
    · exact ih hnd.2 m1 m2

theorem RegisterForMapsWithGameMode_fresh (Registry : TMap)
    (This : UGameModeServiceConfigBase) (GameModeClass : TSubclassOf)
    (h : Registry.Find GameModeClass = none) :
    (RegisterForMapsWithGameMode Registry This GameModeClass).Registry
      = Registry ++ [(GameModeClass, This.Class)] := by
  simp [RegisterForMapsWithGameMode, h]

/-! ## The claims on registration and selection -/

/-- C1 (as stated, refuted): game mode `A` is bound to config class `CA`; a config of the
different class `CB` then registers for `A`, and afterwards `A` is no longer bound to `CA`. -/
theorem register_first_registrant_wins_counterexample :
    (RegisterAll [] [⟨GetDefaultObject ConfigCA, some GameModeA⟩]).Find (some GameModeA)
        = some ConfigCA ∧
      (GetDefaultObject ConfigCB).Class ≠ ConfigCA ∧
      (RegisterForMapsWithGameMode (RegisterAll [] [⟨GetDefaultObject ConfigCA, some GameModeA⟩])
          (GetDefaultObject ConfigCB) (some GameModeA)).Registry.Find (some GameModeA)
        ≠ some ConfigCA := by
  decide

/-- C1 (amended): last registrant wins. When a game mode is already bound to some config class
and a config object registers for it, the map afterwards binds that game mode to the class of
the registering object; the keys of the map and their order are unchanged (the slot is
overwritten in place, none is added) and the binding of every other game mode is unchanged. -/
theorem register_last_registrant_wins (Registry : TMap) (GameModeClass : TSubclassOf)
    (C1 : UClass) (This : UGameModeServiceConfigBase)
    (h : Registry.Find GameModeClass = some C1) :
    (RegisterForMapsWithGameMode Registry This GameModeClass).Registry.Find GameModeClass
        = some This.Class ∧
      (RegisterForMapsWithGameMode Registry This GameModeClass).Registry.Keys = Registry.Keys ∧
      ∀ Other, Other ≠ GameModeClass →
        (RegisterForMapsWithGameMode Registry This GameModeClass).Registry.Find Other
          = Registry.Find Other := by
  refine ⟨RegisterForMapsWithGameMode_Find_same Registry This GameModeClass, ?_, ?_⟩
  · have hk : GameModeClass ∈ Registry.Keys := by
      by_contra hc
      rw [(TMap.Find_eq_none_iff Registry GameModeClass).2 hc] at h
      cases h
    rw [RegisterForMapsWithGameMode_Keys, if_pos hk]
  · intro Other hne
    exact RegisterForMapsWithGameMode_Find_other Registry This GameModeClass Other hne

/-- C1 (amended), at a concrete input: `A` bound to `CA`, then `CB` registers for `A`. -/
theorem register_last_registrant_wins_witness :
    TMap.Find [(some GameModeA, ConfigCA)] (some GameModeA) = some ConfigCA ∧
      (RegisterForMapsWithGameMode [(some GameModeA, ConfigCA)] (GetDefaultObject ConfigCB)
          (some GameModeA)).Registry.Find (some GameModeA) = some ConfigCB :=
  ⟨by decide,
    (register_last_registrant_wins [(some GameModeA, ConfigCA)] (some GameModeA) ConfigCA
      (GetDefaultObject ConfigCB) (by decide)).1⟩

/-- C2 (as stated, refuted): `B` strictly descends from `A`; `CA` registers for `A` first, then
`CB` for `B`; the world with game mode `B` gets the default object of `CA`, not that of `CB`. -/
theorem find_config_most_specific_counterexample :
    IsDescendantOrSelf GameModeB GameModeA ∧ GameModeB ≠ GameModeA ∧
      GetDefaultObject ConfigCA ≠ GetDefaultObject ConfigCB ∧
      FindConfigForWorld
          (RegisterAll [] [⟨GetDefaultObject ConfigCA, some GameModeA⟩,
            ⟨GetDefaultObject ConfigCB, some GameModeB⟩])
          (WorldWithGameMode (some GameModeB))
        = some (GetDefaultObject ConfigCA) :=
  ⟨(UClass.IsChildOf_some_iff _ _).1 (by decide), by decide, by decide, by decide⟩

/-- C2 (amended): the registration made first is the one selected. Let `B` strictly descend
from `A`, and let no game mode bound so far be `B` or an ancestor of `B` (as in the empty map).
If `CB` registers for `B` and then `CA` for `A`, a world with game mode `B` gets the default
object of `CB`'s class; if `CA` registers for `A` first and then `CB` for `B`, it gets the
default object of `CA`'s class. -/
theorem find_config_first_registered_wins (Registry : TMap) (A B : UClass)
    (CA CB : UGameModeServiceConfigBase) (World : UWorld)
    (hdesc : IsDescendantOrSelf B A) (hne : B ≠ A)
    (hfresh : ∀ K V, (some K, V) ∈ Registry → ¬ IsDescendantOrSelf B K)
    (hworld : World.WorldSettings.DefaultGameMode = some B) :
    FindConfigForWorld (RegisterAll Registry [⟨CB, some B⟩, ⟨CA, some A⟩]) World
        = some (GetDefaultObject CB.Class) ∧
      FindConfigForWorld (RegisterAll Registry [⟨CA, some A⟩, ⟨CB, some B⟩]) World
        = some (GetDefaultObject CA.Class) := by
  have hloop : FindConfigForWorldLoop B Registry = none :=
    (FindConfigForWorldLoop_eq_none_iff B Registry).2 hfresh
  have hB : Registry.Find (some B) = none := by
    rw [TMap.Find_eq_none_iff]
    intro hk
    obtain ⟨V, hmem⟩ := TMap.Keys_mem Registry (some B) hk
    exact hfresh B V hmem (IsDescendantOrSelf.self B)
  have hA : Registry.Find (some A) = none := by
    rw [TMap.Find_eq_none_iff]
    intro hk
    obtain ⟨V, hmem⟩ := TMap.Keys_mem Registry (some A) hk
    exact hfresh A V hmem hdesc
  have hBA : TMap.Find (Registry ++ [(some B, CB.Class)]) (some A) = none := by
    simp [TMap.Find_append, hA, TMap.Find, hne]
  have hAB : TMap.Find (Registry ++ [(some A, CA.Class)]) (some B) = none := by
    have hne2 : ¬ A = B := fun e => hne e.symm
    simp [TMap.Find_append, hB, TMap.Find, hne2]
  have hchildA : B.IsChildOf (some A) = true := (UClass.IsChildOf_some_iff B A).2 hdesc
  constructor
  · simp only [RegisterAll, FindConfigForWorld, hworld]
    rw [RegisterForMapsWithGameMode_fresh Registry CB (some B) hB,
      RegisterForMapsWithGameMode_fresh _ CA (some A) hBA, List.append_assoc,
      FindConfigForWorldLoop_append B Registry _ hloop]
    simp [FindConfigForWorldLoop, UClass.IsChildOf_self]
  · simp only [RegisterAll, FindConfigForWorld, hworld]
    rw [RegisterForMapsWithGameMode_fresh Registry CA (some A) hA,
      RegisterForMapsWithGameMode_fresh _ CB (some B) hAB, List.append_assoc,
      FindConfigForWorldLoop_append B Registry _ hloop]
    simp [FindConfigForWorldLoop, hchildA]

/-- C2 (amended), at a concrete input: from the empty map, with `B` deriving from `A`. -/
theorem find_config_first_registered_wins_witness :
    FindConfigForWorld
        (RegisterAll [] [⟨GetDefaultObject ConfigCB, some GameModeB⟩,
          ⟨GetDefaultObject ConfigCA, some GameModeA⟩])
        (WorldWithGameMode (some GameModeB)) = some (GetDefaultObject ConfigCB) ∧
      FindConfigForWorld
        (RegisterAll [] [⟨GetDefaultObject ConfigCA, some GameModeA⟩,
          ⟨GetDefaultObject ConfigCB, some GameModeB⟩])
        (WorldWithGameMode (some GameModeB)) = some (GetDefaultObject ConfigCA) :=
  find_config_first_registered_wins [] GameModeA GameModeB (GetDefaultObject ConfigCA)
    (GetDefaultObject ConfigCB) (WorldWithGameMode (some GameModeB))
    ((UClass.IsChildOf_some_iff _ _).1 (by decide)) (by decide)
    (fun _ _ hmem => nomatch hmem) rfl

/-- C3: soundness of selection. Whenever `FindConfigForWorld` returns a configuration, the world
has a game mode, and the map binds some game mode `K` to a config class `V` such that the
returned configuration is the default object of `V` and the world's game mode is `K` itself or
a descendant of `K`. -/
theorem find_config_sound (Registry : TMap) (World : UWorld)
    (Config : UGameModeServiceConfigBase)
    (h : FindConfigForWorld Registry World = some Config) :
    ∃ Current K V, World.WorldSettings.DefaultGameMode = some Current ∧
      Registry.Find (some K) = some V ∧ Config = GetDefaultObject V ∧
      IsDescendantOrSelf Current K := by
  unfold FindConfigForWorld at h
  cases hmode : World.WorldSettings.DefaultGameMode with
  | none => simp [hmode] at h
  | some Current =>
    simp only [hmode] at h
    obtain ⟨K, V, hfind, hcfg, hdesc⟩ := FindConfigForWorldLoop_eq_some Current Registry Config h
    exact ⟨Current, K, V, rfl, hfind, hcfg, hdesc⟩

/-- C3, at a concrete input: `A` bound to `CA`, `B` bound to `CB`, world with game mode `B`. -/
theorem find_config_sound_witness :
    ∃ Current K V,
      (WorldWithGameMode (some GameModeB)).WorldSettings.DefaultGameMode = some Current ∧
      TMap.Find [(some GameModeA, ConfigCA), (some GameModeB, ConfigCB)] (some K) = some V ∧
      GetDefaultObject ConfigCA = GetDefaultObject V ∧ IsDescendantOrSelf Current K :=
  find_config_sound [(some GameModeA, ConfigCA), (some GameModeB, ConfigCB)]
    (WorldWithGameMode (some GameModeB)) (GetDefaultObject ConfigCA) (by decide)

/-- C4: `FindConfigForWorld` returns none exactly when the world has no game mode or no bound
game mode is the world's game mode or an ancestor of it. In particular it returns none on the
empty map, and it returns a configuration as soon as one bound game mode is the world's game
mode or an ancestor of it. -/
theorem find_config_none_iff (Registry : TMap) (World : UWorld) :
    (FindConfigForWorld Registry World = none ↔
        (World.WorldSettings.DefaultGameMode = none ∨
          ∃ Current, World.WorldSettings.DefaultGameMode = some Current ∧
            ∀ K V, (some K, V) ∈ Registry → ¬ IsDescendantOrSelf Current K)) ∧
      FindConfigForWorld [] World = none ∧
      (∀ Current K V, World.WorldSettings.DefaultGameMode = some Current →
        (some K, V) ∈ Registry → IsDescendantOrSelf Current K →
        (FindConfigForWorld Registry World).isSome = true) := by
  refine ⟨?_, ?_, ?_⟩
  · unfold FindConfigForWorld
    cases hmode : World.WorldSettings.DefaultGameMode with
    | none => simp
    | some Current =>
      simp only [FindConfigForWorldLoop_eq_none_iff, false_or, Option.some.injEq, reduceCtorEq]
      constructor
      · intro h
        exact ⟨Current, rfl, h⟩
      · rintro ⟨c, hc, h⟩
        exact hc ▸ h
  · unfold FindConfigForWorld
    cases World.WorldSettings.DefaultGameMode <;> rfl
  · intro Current K V hmode hmem hdesc
    unfold FindConfigForWorld
    simp only [hmode]
    cases hres : FindConfigForWorldLoop Current Registry with
    | none =>
      exact absurd hdesc ((FindConfigForWorldLoop_eq_none_iff Current Registry).1 hres K V hmem)
    | some c => rfl

/-- C4, at a concrete input: `A` is bound, the world's game mode `B` descends from `A`. -/
theorem find_config_none_iff_witness :
    (FindConfigForWorld [(some GameModeA, ConfigCA)] (WorldWithGameMode (some GameModeB))).isSome
      = true :=
  (find_config_none_iff [(some GameModeA, ConfigCA)] (WorldWithGameMode (some GameModeB))).2.2
    GameModeB GameModeA ConfigCA rfl (List.mem_cons_self _ _)
    ((UClass.IsChildOf_some_iff _ _).1 (by decide))

/-- C5 (as stated, refuted): two call sequences that end with the same set of bindings, `A` to
`CA` and `B` to `CB`, and a world with game mode `B` for which the two resulting maps select
different configurations. -/
theorem find_config_order_independent_counterexample :
    (∀ p, p ∈ RegisterAll [] [⟨GetDefaultObject ConfigCA, some GameModeA⟩,
            ⟨GetDefaultObject ConfigCB, some GameModeB⟩]
        ↔ p ∈ RegisterAll [] [⟨GetDefaultObject ConfigCB, some GameModeB⟩,
            ⟨GetDefaultObject ConfigCA, some GameModeA⟩]) ∧
      FindConfigForWorld
          (RegisterAll [] [⟨GetDefaultObject ConfigCA, some GameModeA⟩,
            ⟨GetDefaultObject ConfigCB, some GameModeB⟩])
          (WorldWithGameMode (some GameModeB))
        ≠ FindConfigForWorld
          (RegisterAll [] [⟨GetDefaultObject ConfigCB, some GameModeB⟩,
            ⟨GetDefaultObject ConfigCA, some GameModeA⟩])
          (WorldWithGameMode (some GameModeB)) := by
  refine ⟨?_, by decide⟩
  have h1 : RegisterAll [] [⟨GetDefaultObject ConfigCA, some GameModeA⟩,
      ⟨GetDefaultObject ConfigCB, some GameModeB⟩]
      = [(some GameModeA, ConfigCA), (some GameModeB, ConfigCB)] := by decide
  have h2 : RegisterAll [] [⟨GetDefaultObject ConfigCB, some GameModeB⟩,
      ⟨GetDefaultObject ConfigCA, some GameModeA⟩]
      = [(some GameModeB, ConfigCB), (some GameModeA, ConfigCA)] := by decide
  intro p
  rw [h1, h2]
  simp only [List.mem_cons, List.mem_singleton, List.not_mem_nil, or_false]
  exact Or.comm

/-- C5 (amended): for two call sequences from the empty map that end with the same set of
bindings, and a world such that all bound game modes that are the world's game mode or an
ancestor of it carry one and the same config class (in particular when at most one bound game
mode matches), `FindConfigForWorld` returns the same result after either sequence. -/
theorem find_config_order_independent_when_unambiguous (Calls1 Calls2 : List RegisterCall)
    (World : UWorld)
    (hsame : ∀ p, p ∈ RegisterAll [] Calls1 ↔ p ∈ RegisterAll [] Calls2)
    (hone : ∀ Current K1 V1 K2 V2, World.WorldSettings.DefaultGameMode = some Current →
      (some K1, V1) ∈ RegisterAll [] Calls1 → (some K2, V2) ∈ RegisterAll [] Calls1 →
      IsDescendantOrSelf Current K1 → IsDescendantOrSelf Current K2 → V1 = V2) :
    FindConfigForWorld (RegisterAll [] Calls1) World
      = FindConfigForWorld (RegisterAll [] Calls2) World := by
  unfold FindConfigForWorld
  cases hmode : World.WorldSettings.DefaultGameMode with
  | none => rfl
  | some Current =>
    exact FindConfigForWorldLoop_same_bindings Current _ _ hsame
      (fun K1 V1 K2 V2 => hone Current K1 V1 K2 V2 hmode)

/-- C5 (amended), at a concrete input: `A` bound to `CA` and the unrelated game mode `C` bound
to `CB`, registered in either order; the world has game mode `B`, a descendant of `A` only. -/
theorem find_config_order_independent_when_unambiguous_witness :
    FindConfigForWorld
        (RegisterAll [] [⟨GetDefaultObject ConfigCA, some GameModeA⟩,
          ⟨GetDefaultObject ConfigCB, some GameModeC⟩])
        (WorldWithGameMode (some GameModeB))
      = FindConfigForWorld
        (RegisterAll [] [⟨GetDefaultObject ConfigCB, some GameModeC⟩,
          ⟨GetDefaultObject ConfigCA, some GameModeA⟩])
        (WorldWithGameMode (some GameModeB)) := by
  have h1 : RegisterAll [] [⟨GetDefaultObject ConfigCA, some GameModeA⟩,
      ⟨GetDefaultObject ConfigCB, some GameModeC⟩]
      = [(some GameModeA, ConfigCA), (some GameModeC, ConfigCB)] := by decide
  have h2 : RegisterAll [] [⟨GetDefaultObject ConfigCB, some GameModeC⟩,
      ⟨GetDefaultObject ConfigCA, some GameModeA⟩]
      = [(some GameModeC, ConfigCB), (some GameModeA, ConfigCA)] := by decide
  have hnot : ∀ K V, (some K, V) = (some GameModeC, ConfigCB) →
      ¬ IsDescendantOrSelf GameModeB K := by
    intro K V e hd
    have hK : K = GameModeC := Option.some.inj (Prod.mk.inj e).1
    have hchild := (UClass.IsChildOf_some_iff GameModeB K).2 hd
    rw [hK] at hchild
    exact absurd hchild (by decide)
  apply find_config_order_independent_when_unambiguous
  · intro p
    rw [h1, h2]
    simp only [List.mem_cons, List.mem_singleton, List.not_mem_nil, or_false]
    exact Or.comm
  · intro Current K1 V1 K2 V2 hmode hm1 hm2 hd1 hd2
    have hcur : Current = GameModeB := (Option.some.inj hmode).symm
    subst hcur
    rw [h1] at hm1 hm2
    simp only [List.mem_cons, List.mem_singleton, List.not_mem_nil, or_false] at hm1 hm2
    rcases hm1 with e1 | e1
    · rcases hm2 with e2 | e2
      · exact (Prod.mk.inj e1).2.trans (Prod.mk.inj e2).2.symm
      · exact absurd hd2 (hnot K2 V2 e2)
    · exact absurd hd1 (hnot K1 V1 e1)

/-- C6 (the code at the failing input): `CA` is the only registration and is bound to `A`; for
the strict descendant `B` of `A` the world with game mode `B` selects the default object of
`CA`, yet that object's `ShouldUseWithGameMode(B)` returns false; asked about `A` itself it
returns true. -/
theorem should_use_disagrees_with_selection :
    FindConfigForWorld (RegisterAll [] [⟨GetDefaultObject ConfigCA, some GameModeA⟩])
        (WorldWithGameMode (some GameModeB)) = some (GetDefaultObject ConfigCA) ∧
      ShouldUseWithGameMode (RegisterAll [] [⟨GetDefaultObject ConfigCA, some GameModeA⟩])
        (GetDefaultObject ConfigCA) (some GameModeB) = some false ∧
      ShouldUseWithGameMode (RegisterAll [] [⟨GetDefaultObject ConfigCA, some GameModeA⟩])
        (GetDefaultObject ConfigCA) (some GameModeA) = some true := by
  decide

/-- C7 (the code at the failing input): `A` is bound to `CA`, and a config of that same class
`CA` registers for `A` again; the ensure "already has another config class configured" fires,
although the bound class is the registering one. -/
theorem register_same_class_again_hits_ensure :
    (RegisterAll [] [⟨GetDefaultObject ConfigCA, some GameModeA⟩]).Find (some GameModeA)
        = some (GetDefaultObject ConfigCA).Class ∧
      (RegisterForMapsWithGameMode (RegisterAll [] [⟨GetDefaultObject ConfigCA, some GameModeA⟩])
        (GetDefaultObject ConfigCA) (some GameModeA)).bEnsureFailed = true := by
  decide

/-- C8: at most one config per game mode. After every finite sequence of registration calls
from the empty map, no game mode occurs twice among the keys of the map, and two bindings of
one game mode are the same binding: the map is a partial function from game mode to config
class. -/
theorem register_at_most_one_config_per_mode (Calls : List RegisterCall) :
    (RegisterAll [] Calls).Keys.Nodup ∧
      ∀ K V1 V2, (K, V1) ∈ RegisterAll [] Calls → (K, V2) ∈ RegisterAll [] Calls → V1 = V2 := by
  have hnodup : (RegisterAll [] Calls).Keys.Nodup :=
    RegisterAll_Keys_nodup Calls [] List.nodup_nil
  exact ⟨hnodup, fun K V1 V2 h1 h2 => TMap.value_unique _ K V1 V2 hnodup h1 h2⟩

/-! ## Lemmas on the async service lifecycle -/

theorem count_Executed_map (Callback : FOnAsyncGameServiceStarted)
    (Queue : List FOnAsyncGameServiceStarted) :
    List.count (EServiceEffect.Executed Callback) (Queue.map EServiceEffect.Executed)
      = List.count Callback Queue := by
  induction Queue with
  | nil => rfl
  | cons q rest ih =>
    by_cases hq : q = Callback
    · subst hq
      simp [ih]
    · have hq2 : ¬ EServiceEffect.Executed q = EServiceEffect.Executed Callback := by
        intro e
        exact hq (EServiceEffect.Executed.inj e)
      simp only [List.map_cons, List.count_cons, ih]
      simp [hq, hq2]

theorem SuppliedCallbacks_cons (c : EServiceCall) (rest : List EServiceCall) :
    SuppliedCallbacks (c :: rest) = SuppliedCallbacks [c] ++ SuppliedCallbacks rest := by
  cases c <;> rfl

/-- Every call conserves the delegates: what it executes plus what it leaves queued is what was
queued before plus what the call supplied. -/
theorem Call_conserves_callbacks (This Next : UAsyncGameServiceBase) (c : EServiceCall)
    (Effects : List EServiceEffect) (h : This.Call c = some (Next, Effects))
    (Callback : FOnAsyncGameServiceStarted) :
    List.count (EServiceEffect.Executed Callback) Effects
        + List.count Callback Next.PendingServiceStartCallbacks
      = List.count Callback This.PendingServiceStartCallbacks
        + List.count Callback (SuppliedCallbacks [c]) := by
  cases c with
  | StartService bReady =>
    simp only [UAsyncGameServiceBase.Call, UAsyncGameServiceBase.StartService] at h
    split at h
    · split at h <;>
      · simp only [Option.some.injEq, Prod.mk.injEq] at h
        obtain ⟨hn, he⟩ := h
        subst hn he
        simp [SuppliedCallbacks]
    · cases h
  | Tick bReady =>
    simp only [UAsyncGameServiceBase.Call,
      UAsyncGameServiceBase.PollPendingDependencyWaitCallbacks] at h
    split at h <;>
    · simp only [Option.some.injEq, Prod.mk.injEq] at h
      obtain ⟨hn, he⟩ := h
      subst hn he
      simp [SuppliedCallbacks]
  | WaitUntilServiceIsRunning cb =>
    simp only [UAsyncGameServiceBase.Call,
      UAsyncGameServiceBase.WaitUntilServiceIsRunning] at h
    split at h
    · simp only [Option.some.injEq, Prod.mk.injEq] at h
      obtain ⟨hn, he⟩ := h
      subst hn he
      by_cases hcb : cb = Callback
      · subst hcb
        simp [SuppliedCallbacks, Nat.add_comm]
      · have hcb2 : ¬ EServiceEffect.Executed cb = EServiceEffect.Executed Callback := by
          intro e
          exact hcb (EServiceEffect.Executed.inj e)
        simp [SuppliedCallbacks, List.count_cons, hcb, hcb2]
    · simp only [Option.some.injEq, Prod.mk.injEq] at h
      obtain ⟨hn, he⟩ := h
      subst hn he
      simp [SuppliedCallbacks]
  | FinishServiceStart =>
    simp only [UAsyncGameServiceBase.Call, UAsyncGameServiceBase.FinishServiceStart] at h
    split at h
    · simp only [Option.some.injEq, Prod.mk.injEq] at h
      obtain ⟨hn, he⟩ := h
      subst hn he
      simp [SuppliedCallbacks, count_Executed_map]
    · cases h
  | ShutdownService bTearingDown =>
    simp only [UAsyncGameServiceBase.Call, UAsyncGameServiceBase.ShutdownService] at h
    split at h
    · simp only [Option.some.injEq, Prod.mk.injEq] at h
      obtain ⟨hn, he⟩ := h
      subst hn he
      simp [SuppliedCallbacks]
    · cases h
  | FinishServiceShutdown =>
    simp only [UAsyncGameServiceBase.Call, UAsyncGameServiceBase.FinishServiceShutdown] at h
    split at h
    · simp only [Option.some.injEq, Prod.mk.injEq] at h
      obtain ⟨hn, he⟩ := h
      subst hn he
      simp [SuppliedCallbacks]
    · cases h

theorem CallAll_conserves_callbacks (Calls : List EServiceCall)
    (This Final : UAsyncGameServiceBase) (Effects : List EServiceEffect)
    (h : This.CallAll Calls = some (Final, Effects)) (Callback : FOnAsyncGameServiceStarted) :
    List.count (EServiceEffect.Executed Callback) Effects
        + List.count Callback Final.PendingServiceStartCallbacks
      = List.count Callback This.PendingServiceStartCallbacks
        + List.count Callback (SuppliedCallbacks Calls) := by
  induction Calls generalizing This Effects with
  | nil =>
    simp only [UAsyncGameServiceBase.CallAll, Option.some.injEq, Prod.mk.injEq] at h
    obtain ⟨hn, he⟩ := h
    subst hn he
    simp [SuppliedCallbacks]
  | cons c rest ih =>
    simp only [UAsyncGameServiceBase.CallAll] at h
    cases hc : This.Call c with
    | none => simp [hc] at h
    | some r1 =>
      obtain ⟨Next, E1⟩ := r1
      simp only [hc] at h
      cases hr : Next.CallAll rest with
      | none => simp [hr] at h
      | some r2 =>
        obtain ⟨Last, E2⟩ := r2
        simp only [hr, Option.some.injEq, Prod.mk.injEq] at h
        obtain ⟨hn, he⟩ := h
        subst hn he
        have h1 := Call_conserves_callbacks This Next c E1 hc Callback
        have h2 := ih Next E2 hr
        rw [SuppliedCallbacks_cons, List.count_append, List.count_append]
        omega

theorem CallAll_WaitUntilServiceIsRunning_queues (Callbacks : List FOnAsyncGameServiceStarted)
    (This : UAsyncGameServiceBase) (h : This.IsServiceRunning = false) :
    This.CallAll (Callbacks.map EServiceCall.WaitUntilServiceIsRunning)
      = some ({ This with PendingServiceStartCallbacks :=
                  This.PendingServiceStartCallbacks ++ Callbacks }, []) := by
  induction Callbacks generalizing This with
  | nil => simp [UAsyncGameServiceBase.CallAll]
  | cons cb rest ih =>
    have hnext : UAsyncGameServiceBase.IsServiceRunning
        { This with PendingServiceStartCallbacks :=
            This.PendingServiceStartCallbacks ++ [cb] } = false := h
    simp only [List.map_cons, UAsyncGameServiceBase.CallAll, UAsyncGameServiceBase.Call,
      UAsyncGameServiceBase.WaitUntilServiceIsRunning, h, Bool.false_eq_true, if_false,
      ih _ hnext]
    simp

/-! ## The claims on the async service lifecycle -/

/-- C9: on a service whose status is Running, `WaitUntilServiceIsRunning` executes the given
callback exactly once within the call (the effects of the call are that one execution) and
returns the service unchanged, so the queue of pending callbacks and the status are as before. -/
theorem wait_until_running_executes_when_running (Service : UAsyncGameServiceBase)
    (Callback : FOnAsyncGameServiceStarted)
    (h : Service.CurrentStatus = EAsyncServiceStatus.Running) :
    Service.WaitUntilServiceIsRunning Callback
      = (Service, [EServiceEffect.Executed Callback]) := by
  simp [UAsyncGameServiceBase.WaitUntilServiceIsRunning,
    UAsyncGameServiceBase.IsServiceRunning, h]

/-- C9, at a concrete input: a constructed service that was started and finished starting, with
one callback. -/
theorem wait_until_running_executes_when_running_witness :
    (UAsyncGameServiceBase.CallAll UAsyncGameServiceBase.Constructed
        [EServiceCall.StartService true, EServiceCall.FinishServiceStart,
          EServiceCall.WaitUntilServiceIsRunning 7]).map Prod.snd
      = some [EServiceEffect.BeginServiceStart, EServiceEffect.Executed 7] ∧
    UAsyncGameServiceBase.WaitUntilServiceIsRunning
        ⟨EAsyncServiceStatus.Running, true, [], false⟩ 7
      = (⟨EAsyncServiceStatus.Running, true, [], false⟩, [EServiceEffect.Executed 7]) :=
  ⟨by decide,
    wait_until_running_executes_when_running ⟨EAsyncServiceStatus.Running, true, [], false⟩ 7 rfl⟩

/-- C10: let callbacks be handed to `WaitUntilServiceIsRunning` one after the other while the
service is Starting. None of them is executed by these calls, they are appended to the queue in
that order, and `FinishServiceStart` then moves the service to Running, executes every queued
callback once, in the order of the queue, and leaves the queue empty. Whatever calls follow,
a callback is executed by them at most as often as it is handed to `WaitUntilServiceIsRunning`
anew, so none of the drained callbacks is executed a second time. -/
theorem finish_service_start_drains_queue_in_order (Service : UAsyncGameServiceBase)
    (Callbacks : List FOnAsyncGameServiceStarted)
    (h : Service.CurrentStatus = EAsyncServiceStatus.Starting) :
    ∃ Queued Started,
      Service.CallAll (Callbacks.map EServiceCall.WaitUntilServiceIsRunning)
          = some (Queued, []) ∧
        Queued.CurrentStatus = EAsyncServiceStatus.Starting ∧
        Queued.PendingServiceStartCallbacks
          = Service.PendingServiceStartCallbacks ++ Callbacks ∧
        Queued.FinishServiceStart
          = some (Started,
              (Service.PendingServiceStartCallbacks ++ Callbacks).map EServiceEffect.Executed) ∧
        Started.CurrentStatus = EAsyncServiceStatus.Running ∧
        Started.PendingServiceStartCallbacks = [] ∧
        ∀ Later Final Effects, Started.CallAll Later = some (Final, Effects) →
          ∀ Callback, List.count (EServiceEffect.Executed Callback) Effects
            ≤ List.count Callback (SuppliedCallbacks Later) := by
  have hrun : Service.IsServiceRunning = false := by
    simp [UAsyncGameServiceBase.IsServiceRunning, h]
  refine ⟨{ Service with PendingServiceStartCallbacks :=
              Service.PendingServiceStartCallbacks ++ Callbacks },
    { Service with CurrentStatus := EAsyncServiceStatus.Running,
                   PendingServiceStartCallbacks := [] },
    CallAll_WaitUntilServiceIsRunning_queues Callbacks Service hrun, h, rfl, ?_, rfl, rfl, ?_⟩
  · simp [UAsyncGameServiceBase.FinishServiceStart, h]
  · intro Later Final Effects hlater Callback
    have hcons := CallAll_conserves_callbacks Later _ Final Effects hlater Callback
    simp only [List.count_nil, Nat.zero_add] at hcons
    omega

/-- C10, at a concrete input: a service in status Starting with an empty queue, and the
callbacks 1, 2, 3. -/
theorem finish_service_start_drains_queue_in_order_witness :
    ∃ Queued Started,
      UAsyncGameServiceBase.CallAll ⟨EAsyncServiceStatus.Starting, true, [], false⟩
          ([1, 2, 3].map EServiceCall.WaitUntilServiceIsRunning) = some (Queued, []) ∧
        Queued.CurrentStatus = EAsyncServiceStatus.Starting ∧
        Queued.PendingServiceStartCallbacks = [] ++ [1, 2, 3] ∧
        Queued.FinishServiceStart
          = some (Started, ([] ++ [1, 2, 3]).map EServiceEffect.Executed) ∧
        Started.CurrentStatus = EAsyncServiceStatus.Running ∧
        Started.PendingServiceStartCallbacks = [] ∧
        ∀ Later Final Effects, Started.CallAll Later = some (Final, Effects) →
          ∀ Callback, List.count (EServiceEffect.Executed Callback) Effects
            ≤ List.count Callback (SuppliedCallbacks Later) :=
  finish_service_start_drains_queue_in_order ⟨EAsyncServiceStatus.Starting, true, [], false⟩
    [1, 2, 3] rfl

/-- C13: an async service is tickable exactly when it is Running. For every service,
`IsTickable()` equals `IsServiceRunning()`, which equals `CurrentStatus == Running`; hence a
service that is Inactive, Starting or Stopping is not tickable, and neither is a freshly
constructed one. -/
theorem is_tickable_exactly_when_running (Service : UAsyncGameServiceBase) :
    Service.IsTickable = Service.IsServiceRunning ∧
      Service.IsServiceRunning = decide (Service.CurrentStatus = EAsyncServiceStatus.Running) ∧
      (Service.IsTickable = true ↔ Service.CurrentStatus = EAsyncServiceStatus.Running) ∧
      (Service.CurrentStatus = EAsyncServiceStatus.Inactive ∨
          Service.CurrentStatus = EAsyncServiceStatus.Starting ∨
          Service.CurrentStatus = EAsyncServiceStatus.Stopping →
        Service.IsTickable = false) ∧
      UAsyncGameServiceBase.Constructed.IsTickable = false := by
  refine ⟨rfl, ?_, ?_, ?_, by decide⟩
  · cases h : Service.CurrentStatus <;>
      simp [UAsyncGameServiceBase.IsServiceRunning, h]
  · cases h : Service.CurrentStatus <;>
      simp [UAsyncGameServiceBase.IsTickable, UAsyncGameServiceBase.IsServiceRunning, h]
  · intro hs
    rcases hs with h | h | h <;>
      simp [UAsyncGameServiceBase.IsTickable, UAsyncGameServiceBase.IsServiceRunning, h]

/-- C13, at a concrete input: a service that is Starting is not tickable. -/
theorem is_tickable_exactly_when_running_witness :
    UAsyncGameServiceBase.IsTickable ⟨EAsyncServiceStatus.Starting, true, [], false⟩ = false :=
  (is_tickable_exactly_when_running ⟨EAsyncServiceStatus.Starting, true, [], false⟩).2.2.2.1
    (Or.inr (Or.inl rfl))

/-! ## The round trip of registration and `ShouldUseWithGameMode` -/

theorem CallAll_Tick_not_ready (n : Nat) (This : UAsyncGameServiceBase) :
    This.CallAll (List.replicate n (EServiceCall.Tick false)) = some (This, []) := by
  induction n with
  | zero => rfl
  | succ n ih =>
    simp [List.replicate_succ, UAsyncGameServiceBase.CallAll, UAsyncGameServiceBase.Call,
      UAsyncGameServiceBase.PollPendingDependencyWaitCallbacks, ih]

theorem Call_BeginServiceStart_only_when_ready (This Next : UAsyncGameServiceBase)
    (c : EServiceCall) (Effects : List EServiceEffect)
    (hwait : This.bWaitForDependenciesBeforeStarting = true)
    (h : This.Call c = some (Next, Effects)) :
    (EServiceEffect.BeginServiceStart ∈ Effects →
        c = EServiceCall.StartService true ∨ c = EServiceCall.Tick true) ∧
      Next.bWaitForDependenciesBeforeStarting = true := by
  cases c with
  | StartService bReady =>
    simp only [UAsyncGameServiceBase.Call, UAsyncGameServiceBase.StartService] at h
    split at h
    · split at h
      · rename_i hready
        simp only [Option.some.injEq, Prod.mk.injEq] at h
        obtain ⟨hn, he⟩ := h
        subst hn he
        have hr : bReady = true := by simpa [hwait] using hready
        exact ⟨fun _ => Or.inl (by rw [hr]), hwait⟩
      · simp only [Option.some.injEq, Prod.mk.injEq] at h
        obtain ⟨hn, he⟩ := h
        subst hn he
        exact ⟨fun hmem => absurd hmem (List.not_mem_nil _), hwait⟩
    · cases h
  | Tick bReady =>
    simp only [UAsyncGameServiceBase.Call,
      UAsyncGameServiceBase.PollPendingDependencyWaitCallbacks] at h
    split at h
    · rename_i hready
      simp only [Option.some.injEq, Prod.mk.injEq] at h
      obtain ⟨hn, he⟩ := h
      subst hn he
      have hr : bReady = true := by
        simp only [Bool.and_eq_true] at hready
        exact hready.2
      exact ⟨fun _ => Or.inr (by rw [hr]), hwait⟩
    · simp only [Option.some.injEq, Prod.mk.injEq] at h
      obtain ⟨hn, he⟩ := h
      subst hn he
      exact ⟨fun hmem => absurd hmem (List.not_mem_nil _), hwait⟩
  | WaitUntilServiceIsRunning cb =>
    simp only [UAsyncGameServiceBase.Call,
      UAsyncGameServiceBase.WaitUntilServiceIsRunning] at h
    split at h
    · simp only [Option.some.injEq, Prod.mk.injEq] at h
      obtain ⟨hn, he⟩ := h
      subst hn he
      exact ⟨fun hmem => absurd hmem (by simp), hwait⟩
    · simp only [Option.some.injEq, Prod.mk.injEq] at h
      obtain ⟨hn, he⟩ := h
      subst hn he
      exact ⟨fun hmem => absurd hmem (List.not_mem_nil _), hwait⟩
  | FinishServiceStart =>
    simp only [UAsyncGameServiceBase.Call, UAsyncGameServiceBase.FinishServiceStart] at h
    split at h
    · simp only [Option.some.injEq, Prod.mk.injEq] at h
      obtain ⟨hn, he⟩ := h
      subst hn he
      exact ⟨fun hmem => absurd hmem (by simp), hwait⟩
    · cases h
  | ShutdownService bTearingDown =>
    simp only [UAsyncGameServiceBase.Call, UAsyncGameServiceBase.ShutdownService] at h
    split at h
    · simp only [Option.some.injEq, Prod.mk.injEq] at h
      obtain ⟨hn, he⟩ := h
      subst hn he
      exact ⟨fun hmem => absurd hmem (by simp), hwait⟩
    · cases h
  | FinishServiceShutdown =>
    simp only [UAsyncGameServiceBase.Call, UAsyncGameServiceBase.FinishServiceShutdown] at h
    split at h
    · simp only [Option.some.injEq, Prod.mk.injEq] at h
      obtain ⟨hn, he⟩ := h
      subst hn he
      exact ⟨fun hmem => absurd hmem (List.not_mem_nil _), hwait⟩
    · cases h

/-- C11: deferred start. Let an Inactive service have `bWaitForDependenciesBeforeStarting`
enabled, and let the dependencies be not ready during `StartService` and during each of the
first `N` ticks. Then at every point up to tick `N` the calls so far have had no effect at all,
so `BeginServiceStart` has not been invoked, and the service is Starting, not Running, with its
start still waiting. Moreover, in every state with the flag enabled, a call whose effects
contain `BeginServiceStart` is a `StartService` or a tick at which the dependencies are ready,
and the flag stays enabled after every call. -/
theorem deferred_start_waits_until_dependencies_ready (Service : UAsyncGameServiceBase)
    (N : Nat)
    (hwait : Service.bWaitForDependenciesBeforeStarting = true)
    (hinactive : Service.CurrentStatus = EAsyncServiceStatus.Inactive) :
    (∀ n, n ≤ N → ∃ Waiting,
        Service.CallAll
            (EServiceCall.StartService false :: List.replicate n (EServiceCall.Tick false))
          = some (Waiting, []) ∧
        Waiting.CurrentStatus = EAsyncServiceStatus.Starting ∧
        Waiting.IsServiceRunning = false ∧
        Waiting.bWaitingForDependencies = true) ∧
      ∀ (Other Next : UAsyncGameServiceBase) (c : EServiceCall) (Effects : List EServiceEffect),
        Other.bWaitForDependenciesBeforeStarting = true →
        Other.Call c = some (Next, Effects) →
        (EServiceEffect.BeginServiceStart ∈ Effects →
            c = EServiceCall.StartService true ∨ c = EServiceCall.Tick true) ∧
          Next.bWaitForDependenciesBeforeStarting = true := by
  constructor
  · intro n _
    refine ⟨{ Service with CurrentStatus := EAsyncServiceStatus.Starting,
                           bWaitingForDependencies := true }, ?_, rfl, rfl, rfl⟩
    simp [UAsyncGameServiceBase.CallAll, UAsyncGameServiceBase.Call,
      UAsyncGameServiceBase.StartService, hwait, hinactive, CallAll_Tick_not_ready]
  · intro Other Next c Effects hw hc
    exact Call_BeginServiceStart_only_when_ready Other Next c Effects hw hc

/-- C11, at a concrete input: a freshly constructed service, with three ticks at which the
dependencies are not ready, and then a fourth at which they are: only that one invokes
`BeginServiceStart`. -/
theorem deferred_start_waits_until_dependencies_ready_witness :
    (∃ Waiting,
        UAsyncGameServiceBase.CallAll UAsyncGameServiceBase.Constructed
            (EServiceCall.StartService false :: List.replicate 3 (EServiceCall.Tick false))
          = some (Waiting, []) ∧
        Waiting.CurrentStatus = EAsyncServiceStatus.Starting ∧
        Waiting.IsServiceRunning = false ∧
        Waiting.bWaitingForDependencies = true) ∧
      (UAsyncGameServiceBase.CallAll UAsyncGameServiceBase.Constructed
          (EServiceCall.StartService false :: List.replicate 3 (EServiceCall.Tick false)
            ++ [EServiceCall.Tick true])).map Prod.snd
        = some [EServiceEffect.BeginServiceStart] :=
  ⟨(deferred_start_waits_until_dependencies_ready UAsyncGameServiceBase.Constructed 3 rfl
      rfl).1 3 (Nat.le_refl 3),
    by decide⟩

/-! ## The teardown of the runner -/

theorem IsDescendantOrSelf_sizeOf (c k : UClass) (h : IsDescendantOrSelf c k) :
    c = k ∨ sizeOf k < sizeOf c := by
  induction h with
  | self c => exact Or.inl rfl
  | step n s k _ ih =>
    right
    have hs : sizeOf s < sizeOf (UClass.derived n s) := by
      simp only [UClass.derived.sizeOf_spec]
      omega
    rcases ih with e | hlt
    · rw [← e]
      exact hs
    · exact Nat.lt_trans hlt hs

theorem IsDescendantOrSelf_antisymm (a b : UClass) (hab : IsDescendantOrSelf a b)
    (hba : IsDescendantOrSelf b a) : a = b := by
  rcases IsDescendantOrSelf_sizeOf a b hab with e | h1
  · exact e
  · rcases IsDescendantOrSelf_sizeOf b a hba with e | h2
    · exact e.symm
    · omega

theorem IsSavingAllowedForWorldLoop_iff (Settings : USaveGameServiceSettings) (c : UClass)
    (htyped : IsDescendantOrSelf c AGameModeBaseClass) :
    IsSavingAllowedForWorldLoop Settings c = true ↔
      ∃ K, some K ∈ Settings.GameModesWhereSavingIsAllowed ∧ IsDescendantOrSelf c K ∧
        IsDescendantOrSelf K AGameModeBaseClass := by
  induction c with
  | root n =>
    simp only [IsSavingAllowedForWorldLoop, decide_eq_true_eq]
    constructor
    · intro hmem
      exact ⟨UClass.root n, hmem, IsDescendantOrSelf.self _, htyped⟩
    · rintro ⟨K, hmem, hK, _⟩
      cases hK
      exact hmem
  | derived n s ih =>
    by_cases hlisted : some (UClass.derived n s) ∈ Settings.GameModesWhereSavingIsAllowed
    · simp only [IsSavingAllowedForWorldLoop, hlisted, if_true, true_iff]
      exact ⟨UClass.derived n s, hlisted, IsDescendantOrSelf.self _, htyped⟩
    · by_cases hbase : UClass.derived n s = AGameModeBaseClass
      · have hlisted2 : some AGameModeBaseClass ∉ Settings.GameModesWhereSavingIsAllowed :=
          hbase ▸ hlisted
        have hfalse : IsSavingAllowedForWorldLoop Settings (UClass.derived n s) = false := by
          simp [IsSavingAllowedForWorldLoop, hbase, hlisted2]
        rw [hfalse, hbase]
        simp only [Bool.false_eq_true, false_iff]
        rintro ⟨K, hmem, hK, hKbase⟩
        have hEq : K = AGameModeBaseClass :=
          IsDescendantOrSelf_antisymm K AGameModeBaseClass hKbase hK
        rw [hEq] at hmem
        exact hlisted2 hmem
      · have hsuper : IsDescendantOrSelf s AGameModeBaseClass := by
          cases htyped with
          | self => exact absurd rfl hbase
          | step _ _ _ h => exact h
        simp only [IsSavingAllowedForWorldLoop, hlisted, hbase, if_false, ih hsuper]
        constructor
        · rintro ⟨K, hmem, hK, hKbase⟩
          exact ⟨K, hmem, IsDescendantOrSelf.step n s K hK, hKbase⟩
        · rintro ⟨K, hmem, hK, hKbase⟩
          cases hK with
          | self => exact absurd hmem hlisted
          | step _ _ _ h => exact ⟨K, hmem, h, hKbase⟩

theorem GetGameModeClass_eq_some_iff (WITH_EDITOR : Bool) (PlayWorld World : UWorldPtr)
    (Mode : UClass) :
    GetGameModeClass WITH_EDITOR PlayWorld World = some Mode ↔
      ∃ Object, PlayWorldFallback WITH_EDITOR PlayWorld World = some Object ∧
        Object.bIsValid = true ∧ Object.World.WorldSettings.DefaultGameMode = some Mode := by
  unfold GetGameModeClass
  cases hw : PlayWorldFallback WITH_EDITOR PlayWorld World with
  | none => simp
  | some Object =>
    by_cases hvalid : Object.bIsValid = true
    · simp only [hvalid, if_true, Option.some.injEq]
      constructor
      · intro hmode
        exact ⟨Object, rfl, hvalid, hmode⟩
      · rintro ⟨Object2, hO, _, hmode⟩
        rw [hO]
        exact hmode
    · simp only [hvalid, if_false, Option.some.injEq, reduceCtorEq, false_iff]
      rintro ⟨Object2, hO, hv, _⟩
      rw [← hO] at hv
      exact hvalid hv

/-- C15 (as stated, refuted): an editor build, a null world, and a play world that is valid and
has game mode `B`, a descendant of the listed game mode `A`. `IsSavingAllowedForWorld` returns
true, although saving is not always allowed, the path of the given world is in no list, and the
given world is not valid. -/
theorem is_saving_allowed_counterexample :
    IsSavingAllowedForWorld ⟨false, [], [some GameModeA]⟩ true
        (some ⟨WorldWithGameMode (some GameModeB), 5, true⟩) none = true ∧
      (⟨false, [], [some GameModeA]⟩ : USaveGameServiceSettings).bAlwaysAllowSaving = false ∧
      GetPathNameSafe none
        ∉ (⟨false, [], [some GameModeA]⟩ : USaveGameServiceSettings).MapsWhereSavingIsAllowed ∧
      IsValid none = false := by
  decide

/-- C15 (amended): `IsSavingAllowedForWorld` is total, and with "the world" read as the world
that the helpers use (the given world, or in an editor build the editor's play world when the
given one is not valid), and its game mode, when set, a class deriving from `AGameModeBase`, it
returns true if and only if `bAlwaysAllowSaving` is set, or the path of that world is in
`MapsWhereSavingIsAllowed`, or that world is valid, has a game mode, and some class that is the
game mode or one of its ancestors, and is `AGameModeBase` or one of its descendants, is listed
in `GameModesWhereSavingIsAllowed`. Hence a listed game mode allows saving for each of its
descendant game modes. -/
theorem is_saving_allowed_iff (Settings : USaveGameServiceSettings) (WITH_EDITOR : Bool)
    (PlayWorld World : UWorldPtr)
    (htyped : ∀ Object Mode, PlayWorldFallback WITH_EDITOR PlayWorld World = some Object →
      Object.World.WorldSettings.DefaultGameMode = some Mode →
      IsDescendantOrSelf Mode AGameModeBaseClass) :
    (IsSavingAllowedForWorld Settings WITH_EDITOR PlayWorld World = true ↔
        (Settings.bAlwaysAllowSaving = true ∨
          GetPathNameSafe (PlayWorldFallback WITH_EDITOR PlayWorld World)
            ∈ Settings.MapsWhereSavingIsAllowed ∨
          ∃ Object Mode K, PlayWorldFallback WITH_EDITOR PlayWorld World = some Object ∧
            Object.bIsValid = true ∧
            Object.World.WorldSettings.DefaultGameMode = some Mode ∧
            IsDescendantOrSelf Mode K ∧ IsDescendantOrSelf K AGameModeBaseClass ∧
            some K ∈ Settings.GameModesWhereSavingIsAllowed)) ∧
      ∀ Object Mode G, PlayWorldFallback WITH_EDITOR PlayWorld World = some Object →
        Object.bIsValid = true →
        Object.World.WorldSettings.DefaultGameMode = some Mode →
        some G ∈ Settings.GameModesWhereSavingIsAllowed →
        IsDescendantOrSelf G AGameModeBaseClass → IsDescendantOrSelf Mode G →
        IsSavingAllowedForWorld Settings WITH_EDITOR PlayWorld World = true := by
  have hiff : IsSavingAllowedForWorld Settings WITH_EDITOR PlayWorld World = true ↔
      (Settings.bAlwaysAllowSaving = true ∨
        GetPathNameSafe (PlayWorldFallback WITH_EDITOR PlayWorld World)
          ∈ Settings.MapsWhereSavingIsAllowed ∨
        ∃ Object Mode K, PlayWorldFallback WITH_EDITOR PlayWorld World = some Object ∧
          Object.bIsValid = true ∧
          Object.World.WorldSettings.DefaultGameMode = some Mode ∧
          IsDescendantOrSelf Mode K ∧ IsDescendantOrSelf K AGameModeBaseClass ∧
          some K ∈ Settings.GameModesWhereSavingIsAllowed) := by
    unfold IsSavingAllowedForWorld GetLevel
    by_cases halways : Settings.bAlwaysAllowSaving = true
    · simp [halways]
    · by_cases hmap : GetPathNameSafe (PlayWorldFallback WITH_EDITOR PlayWorld World)
          ∈ Settings.MapsWhereSavingIsAllowed
      · simp [hmap]
      · simp only [halways, hmap, if_false, false_or, Bool.false_eq_true]
        cases hg : GetGameModeClass WITH_EDITOR PlayWorld World with
        | none =>
          simp only [Bool.false_eq_true, false_iff]
          rintro ⟨Object, Mode, K, hw, hvalid, hmode, _, _, _⟩
          have hsome := (GetGameModeClass_eq_some_iff WITH_EDITOR PlayWorld World Mode).2
            ⟨Object, hw, hvalid, hmode⟩
          rw [hg] at hsome
          cases hsome
        | some Mode =>
          obtain ⟨Object, hw, hvalid, hmode⟩ :=
            (GetGameModeClass_eq_some_iff WITH_EDITOR PlayWorld World Mode).1 hg
          have hM : IsDescendantOrSelf Mode AGameModeBaseClass := htyped Object Mode hw hmode
          simp only [IsSavingAllowedForWorldLoop_iff Settings Mode hM]
          constructor
          · rintro ⟨K, hmem, hK, hKbase⟩
            exact ⟨Object, Mode, K, hw, hvalid, hmode, hK, hKbase, hmem⟩
          · rintro ⟨Object2, Mode2, K, hw2, hvalid2, hmode2, hK, hKbase, hmem⟩
            have hsome := (GetGameModeClass_eq_some_iff WITH_EDITOR PlayWorld World Mode2).2
              ⟨Object2, hw2, hvalid2, hmode2⟩
            rw [hg] at hsome
            have hEq : Mode = Mode2 := Option.some.inj hsome
            subst hEq
            exact ⟨K, hmem, hK, hKbase⟩
  refine ⟨hiff, ?_⟩
  intro Object Mode G hw hvalid hmode hlisted hG hdesc
  exact hiff.2 (Or.inr (Or.inr ⟨Object, Mode, G, hw, hvalid, hmode, hdesc, hG, hlisted⟩))

/-- C15 (amended), at a concrete input: a build without editor, a valid world with game mode
`B`, and the game mode `A`, from which `B` derives, listed. -/
theorem is_saving_allowed_iff_witness :
    IsSavingAllowedForWorld ⟨false, [], [some GameModeA]⟩ false none
        (some ⟨WorldWithGameMode (some GameModeB), 5, true⟩) = true := by
  refine (is_saving_allowed_iff ⟨false, [], [some GameModeA]⟩ false none
    (some ⟨WorldWithGameMode (some GameModeB), 5, true⟩) ?_).2
    ⟨WorldWithGameMode (some GameModeB), 5, true⟩ GameModeB GameModeA rfl rfl rfl
    (by decide) ((UClass.IsChildOf_some_iff _ _).1 (by decide))
    ((UClass.IsChildOf_some_iff _ _).1 (by decide))
  intro Object Mode hw hmode
  have hO : Object = ⟨WorldWithGameMode (some GameModeB), 5, true⟩ :=
    (Option.some.inj hw).symm
  subst hO
  have hM : Mode = GameModeB := (Option.some.inj hmode).symm
  subst hM
  exact (UClass.IsChildOf_some_iff _ _).1 (by decide)

end WeekendUtils
